import Mathlib

/-!
Verification development for the ggpkviewer repository.

Shallow embedding conventions:
- Rust machine integers are modelled as `Nat` (all values read from byte
  streams are below their bound by construction); arithmetic that can
  overflow or panic is made explicit.
- Byte sequences are `List Nat` (each element a byte value 0..255).
- Fallible code (`Result`, panics via `unwrap`, out-of-bounds indexing,
  division by zero, arithmetic underflow) is modelled with `Option`.
- The Oodle block decompressor is opaque in the source; it is modelled as
  an oracle `dec : List Nat → Nat → Option (List Nat)` giving the bytes it
  writes into a destination buffer of the requested length.  The buffer
  itself always has exactly the requested length (the Rust code allocates
  `vec![0u8; size]` and decompresses in place), which `chunkOf` captures.
-/

/-- Little-endian value of a byte list (least significant byte first). -/
def leVal : List Nat → Nat
  | [] => 0
  | b :: rest => b + 256 * leVal rest

/-- Bytes written into a freshly zeroed buffer of length `size`: the
decompressor output, truncated or zero-padded to the buffer length. -/
def chunkOf (out : List Nat) (size : Nat) : List Nat :=
  (out ++ List.replicate size 0).take size

/-! ## Bundle codec (src/bundle.rs) -/

/-- HeadPayload, from `HeadPayload::parse` in src/bundle.rs. -/
structure HeadPayload where
  firstFileEncode : Nat
  unk10 : Nat
  uncompressedSize : Nat
  totalPayloadSize : Nat
  blockCount : Nat
  uncompressedBlockGranularity : Nat
  unk28 : List Nat
  blockSizes : List Nat

/-- Bundle header, from `Bundle::parse` in src/bundle.rs. -/
structure Bundle where
  uncompressedSize : Nat
  totalPayloadSize : Nat
  headPayloadSize : Nat
  headPayload : HeadPayload

/-- Splitting of the raw payload into compressed blocks, from the first
loop of `Bundle::data`: block `i` is `data_input[offset..offset+size_i]`;
an out-of-range slice panics in Rust, modelled as `none`. -/
def splitBlocks (dataInput : List Nat) (offset : Nat) : List Nat → Option (List (List Nat))
  | [] => some []
  | s :: rest =>
    if offset + s ≤ dataInput.length then
      (splitBlocks dataInput (offset + s) rest).map
        (fun tail => ((dataInput.drop offset).take s) :: tail)
    else none

/-- Second loop of `Bundle::data`: every block except the last is
decompressed into a buffer of `granularity` bytes, the last block into a
buffer of `uncompressed % granularity` bytes (the source applies no
special case when the remainder is zero).  A failing block decode is an
`unwrap` panic in the source, modelled as `none`; `%` by zero panics. -/
def decompressBlocks (dec : List Nat → Nat → Option (List Nat))
    (gran uncompressed : Nat) : List (List Nat) → Option (List Nat)
  | [] => some []
  | [b] =>
    if gran = 0 then none
    else (dec b (uncompressed % gran)).map (fun o => chunkOf o (uncompressed % gran))
  | b :: b2 :: rest =>
    (dec b gran).bind (fun o =>
      (decompressBlocks dec gran uncompressed (b2 :: rest)).map
        (fun tail => chunkOf o gran ++ tail))

/-- Bundle.data from src/bundle.rs: read exactly `total_payload_size`
bytes of payload, split them per `block_sizes`, decompress each block and
concatenate the output buffers. -/
def Bundle.data (dec : List Nat → Nat → Option (List Nat)) (b : Bundle)
    (input : List Nat) : Option (List Nat) :=
  if b.headPayload.totalPayloadSize ≤ input.length then
    match splitBlocks (input.take b.headPayload.totalPayloadSize) 0 b.headPayload.blockSizes with
    | none => none
    | some blocks =>
      decompressBlocks dec b.headPayload.uncompressedBlockGranularity
        b.headPayload.uncompressedSize blocks
  else none

/-- Bundle header whose uncompressed size is an exact multiple of the
block granularity: 8 bytes of content, granularity 8, one block. -/
def c1Bundle : Bundle :=
  { uncompressedSize := 8, totalPayloadSize := 2, headPayloadSize := 48,
    headPayload :=
      { firstFileEncode := 0, unk10 := 0, uncompressedSize := 8,
        totalPayloadSize := 2, blockCount := 1,
        uncompressedBlockGranularity := 8, unk28 := [0, 0, 0, 0],
        blockSizes := [2] } }

/-- Decode oracle that succeeds on every block, filling the whole
destination buffer. -/
def decAlways : List Nat → Nat → Option (List Nat) :=
  fun _ n => some (List.replicate n 0)

/-- Claim C1: for a parsed bundle header with `uncompressed_size_64 = 8`,
`block_granularity = 8` and one block, every per-block decode succeeds,
yet `Bundle::data` sizes the last output buffer as `8 % 8 = 0` (the code
never treats a zero remainder as `block_granularity`) and returns a
buffer of length 0 instead of `uncompressed_size_64 = 8`. -/
theorem c1_last_block_zero_remainder :
    Bundle.data decAlways c1Bundle [7, 7] = some [] ∧
    (Bundle.data decAlways c1Bundle [7, 7]).map List.length = some 0 ∧
    c1Bundle.headPayload.uncompressedSize = 8 := by
  refine ⟨rfl, rfl, rfl⟩

/-! ## dat decoder (ggpklib/src/dat.rs) -/

/-- First index `i` at or after `i0` (scanning `fuel` candidates) where the
predicate holds; models `Iterator::position` over `slice::windows`, whose
`unwrap` on no hit is `none` here. -/
def findWindowAux (p : Nat → Bool) : Nat → Nat → Option Nat
  | _, 0 => none
  | i, Nat.succ fuel => if p i then some i else findWindowAux p (i + 1) fuel

/-- Predicate of the string-termination scan in `read_variable_string`:
the 4-byte window at index `i` is all zero and the window index is even. -/
def zeroWindowEvenAt (l : List Nat) (i : Nat) : Bool :=
  decide ((l.drop i).take 4 = [0, 0, 0, 0]) && decide (i % 2 = 0)

/-- Byte length of the string at the start of `l`, from
`read_variable_string`: position of the first all-zero 4-byte window at an
even window index.  Scanning up to `l.length` candidates is equivalent to
scanning the `l.length - 3` windows, since a window reaching past the end
cannot equal `[0,0,0,0]`. -/
def termLength (l : List Nat) : Option Nat :=
  findWindowAux (zeroWindowEvenAt l) 0 l.length

/-- UTF-16 code units of a byte list, two bytes per unit in little-endian
order (the source uses `u16::from_ne_bytes` on a little-endian target); a
trailing odd byte is dropped, as by `chunks_exact(2)`. -/
def utf16Units : List Nat → List Nat
  | a :: b :: rest => (a + 256 * b) :: utf16Units rest
  | _ => []

/-- read_variable_string from ggpklib/src/dat.rs, modelled up to the
UTF-16 code-unit list (the source additionally runs `from_utf16_lossy`). -/
def readVariableString (data : List Nat) (offset : Nat) : Option (List Nat) :=
  (termLength (data.drop offset)).map (fun len => utf16Units ((data.drop offset).take len))

/-- DatFile, from ggpklib/src/dat.rs; the two ranges are kept as their
endpoints (`fixed_data_range = 4..boundary`,
`variable_data_range = boundary..data.len()`). -/
structure DatFile where
  data : List Nat
  rowCount : Nat
  rowLength : Nat
  fixedStart : Nat
  fixedEnd : Nat
  varStart : Nat
  varEnd : Nat
deriving DecidableEq

/-- Position of the first 8-byte run of 0xBB, from `DatFile::new`. -/
def sentinelPos (data : List Nat) : Option Nat :=
  findWindowAux (fun i => decide ((data.drop i).take 8 = List.replicate 8 0xBB)) 0 data.length

/-- DatFile::new from ggpklib/src/dat.rs.  Panics modelled as `none`:
fewer than 4 bytes (indexing `data[0..4]`), no sentinel (`unwrap`),
`row_count = 0` (u32 division by zero) and `boundary < 4` (u32 subtraction
overflow).  The division is plain integer division; divisibility is not
checked. -/
def DatFile.new (data : List Nat) : Option DatFile :=
  if 4 ≤ data.length then
    match sentinelPos data with
    | none => none
    | some boundary =>
      if leVal (data.take 4) = 0 then none
      else if boundary < 4 then none
      else some { data := data, rowCount := leVal (data.take 4),
                  rowLength := (boundary - 4) / leVal (data.take 4),
                  fixedStart := 4, fixedEnd := boundary,
                  varStart := boundary, varEnd := data.length }
  else none

/-- wrap_usize from ggpklib/src/dat.rs. -/
def wrapUsize (v : Nat) : Option Nat :=
  if v = 0xfefefefefefefefe then none else some v

/-- DatValue from ggpklib/src/dat.rs.  Strings are kept as UTF-16 code
units; `f32` values are kept as raw bits (the source never reads them:
the F32 branch of `get_fn` is `todo!()`). -/
inductive DatValue where
  | bool (b : Bool)
  | str (units : List Nat)
  | i16 (v : Int)
  | i32 (v : Int)
  | u16 (v : Nat)
  | u32 (v : Nat)
  | f32 (bits : Nat)
  | unknownArray (variableOffset arrayLength : Nat)
  | array (elems : List DatValue)
  | row (index : Option Nat)
  | foreignRow (rid unknown : Option Nat)
  | enumRow (index : Nat)

/-- Little-endian u64 read at a cursor position, from `read_u64` on the
fixed-data cursor; fails past the end of the slice. -/
def readU64At (l : List Nat) (pos : Nat) : Option Nat :=
  if pos + 8 ≤ l.length then some (leVal ((l.drop pos).take 8)) else none

/-- read_key from ggpklib/src/dat.rs, with the cursor position made
explicit. -/
def readKey (l : List Nat) (pos : Nat) : Option (DatValue × Nat) :=
  (readU64At l pos).map (fun v => (DatValue.row (wrapUsize v), pos + 8))

/-- read_foreign_key from ggpklib/src/dat.rs, with the cursor position
made explicit: two consecutive u64 reads. -/
def readForeignKey (l : List Nat) (pos : Nat) : Option (DatValue × Nat) :=
  (readU64At l pos).bind (fun v =>
    (readU64At l (pos + 8)).map (fun w =>
      (DatValue.foreignRow (wrapUsize v) (wrapUsize w), pos + 16)))

/-- Characterization of the window scan: a hit satisfies the predicate
and is the first index from the scan start to do so. -/
theorem findWindowAux_spec (p : Nat → Bool) :
    ∀ fuel i r, findWindowAux p i fuel = some r →
      p r = true ∧ i ≤ r ∧ ∀ j, i ≤ j → j < r → p j = false := by
  intro fuel
  induction fuel with
  | zero => intro i r h; simp [findWindowAux] at h
  | succ f ih =>
    intro i r h
    simp only [findWindowAux] at h
    by_cases hp : p i
    · rw [if_pos hp] at h
      have hir := Option.some.inj h
      subst hir
      exact ⟨hp, le_rfl, fun j hij hjr => absurd hij (by omega)⟩
    · rw [if_neg hp] at h
      obtain ⟨h1, h2, h3⟩ := ih (i + 1) r h
      rw [Bool.not_eq_true] at hp
      refine ⟨h1, by omega, fun j hij hjr => ?_⟩
      rcases Nat.eq_or_lt_of_le hij with hj | hlt
      · rw [← hj]; exact hp
      · exact h3 j (by omega) hjr

/-- Byte sequence with an 8-byte 0xBB sentinel at offset 8 whose leading
row count 3 does not divide `boundary - 4 = 4`. -/
def c4BadData : List Nat :=
  [3, 0, 0, 0, 170, 170, 170, 170, 187, 187, 187, 187, 187, 187, 187, 187]

/-- Claim C4 counterexample: `DatFile::new` accepts `c4BadData` without
checking divisibility; the constructed file has `(boundary - 4) mod
row_count = 1 ≠ 0` and `row_length * row_count = 3 ≠ 4 = boundary - 4`,
refuting the claim for this constructed DatFile. -/
theorem c4_divisibility_counterexample :
    (DatFile.new c4BadData).map
      (fun df => ((df.fixedEnd - 4) % df.rowCount, df.rowLength * df.rowCount, df.fixedEnd - 4))
      = some (1, 3, 4) ∧ (1 : Nat) ≠ 0 ∧ (3 : Nat) ≠ 4 := by
  exact ⟨by decide, by decide, by decide⟩

/-- Claim C4 (amended): for every DatFile that `DatFile::new` constructs,
`row_length = (boundary - 4) / row_count` by integer division, so when
`(boundary - 4) mod row_count = 0` holds (it is not checked by the code),
`row_length * row_count = boundary - 4`. -/
theorem c4_boundary_divisibility (data : List Nat) (df : DatFile)
    (h : DatFile.new data = some df)
    (hmod : (df.fixedEnd - 4) % df.rowCount = 0) :
    df.rowLength * df.rowCount = df.fixedEnd - 4 := by
  unfold DatFile.new at h
  by_cases h4 : 4 ≤ data.length
  · rw [if_pos h4] at h
    cases hs : sentinelPos data with
    | none => rw [hs] at h; exact absurd h (by simp)
    | some boundary =>
      rw [hs] at h
      dsimp only at h
      by_cases hz : leVal (data.take 4) = 0
      · rw [if_pos hz] at h; exact absurd h (by simp)
      · rw [if_neg hz] at h
        by_cases hb : boundary < 4
        · rw [if_pos hb] at h; exact absurd h (by simp)
        · rw [if_neg hb] at h
          have hdf := Option.some.inj h
          subst hdf
          exact Nat.div_mul_cancel (Nat.dvd_of_mod_eq_zero hmod)
  · rw [if_neg h4] at h; exact absurd h (by simp)

/-- Well-formed dat bytes: row count 2, ten fixed bytes, sentinel at 14. -/
def c4GoodData : List Nat :=
  [2, 0, 0, 0, 9, 9, 9, 9, 9, 9, 9, 9, 9, 9, 187, 187, 187, 187, 187, 187, 187, 187]

/-- The DatFile that `DatFile::new` constructs from `c4GoodData`. -/
def c4GoodDat : DatFile :=
  { data := c4GoodData, rowCount := 2, rowLength := 5,
    fixedStart := 4, fixedEnd := 14, varStart := 14, varEnd := 22 }

/-- Witness for the amended C4 theorem at a concrete well-formed input. -/
theorem c4_boundary_divisibility_witness :
    DatFile.new c4GoodData = some c4GoodDat ∧
    c4GoodDat.rowLength * c4GoodDat.rowCount = c4GoodDat.fixedEnd - 4 := by
  have h : DatFile.new c4GoodData = some c4GoodDat := by decide
  exact ⟨h, c4_boundary_divisibility c4GoodData c4GoodDat h (by decide)⟩

/-- Claim C5: the dat string decoder stops at the first all-zero 4-byte
window at an even window index of the sub-slice starting at `offset`, and
decodes the bytes before it as UTF-16LE code units; in particular the
single unit for the character A, bytes `0x41 0x00`, is not terminated by
its embedded zero byte. -/
theorem c5_string_termination (data : List Nat) (offset len : Nat)
    (h : termLength (data.drop offset) = some len) :
    (len % 2 = 0 ∧ ((data.drop offset).drop len).take 4 = [0, 0, 0, 0] ∧
      ∀ j, j < len → j % 2 = 0 → ((data.drop offset).drop j).take 4 ≠ [0, 0, 0, 0]) ∧
    readVariableString data offset = some (utf16Units ((data.drop offset).take len)) ∧
    readVariableString [65, 0, 0, 0, 0, 0] 0 = some [65] := by
  obtain ⟨h1, -, h3⟩ := findWindowAux_spec _ _ _ _ h
  simp only [zeroWindowEvenAt, Bool.and_eq_true, decide_eq_true_eq] at h1
  refine ⟨⟨h1.2, h1.1, ?_⟩, ?_, by decide⟩
  · intro j hj hje hw
    have hfalse := h3 j (Nat.zero_le j) hj
    simp only [zeroWindowEvenAt, hw, hje] at hfalse
    simp at hfalse
  · simp [readVariableString, h]

/-- Witness for C5 at the concrete heap `[0x41, 0, 0, 0, 0, 0]`. -/
theorem c5_string_termination_witness :
    termLength ([65, 0, 0, 0, 0, 0] : List Nat) = some 2 ∧
    readVariableString [65, 0, 0, 0, 0, 0] 0 = some [65] := by
  have h : termLength (([65, 0, 0, 0, 0, 0] : List Nat).drop 0) = some 2 := by decide
  exact ⟨h, (c5_string_termination [65, 0, 0, 0, 0, 0] 0 2 h).2.2⟩

/-- Claim C9: a raw u64 equal to 0xFEFEFEFEFEFEFEFE decodes to an absent
key and any other u64 to a present key carrying the value, for `Row` via
`read_key` and for both fields of `ForeignRow` via `read_foreign_key`. -/
theorem c9_row_foreignrow_sentinel (l : List Nat) (pos v w : Nat)
    (hv : readU64At l pos = some v) (hw : readU64At l (pos + 8) = some w) :
    readKey l pos = some (DatValue.row (wrapUsize v), pos + 8) ∧
    readForeignKey l pos = some (DatValue.foreignRow (wrapUsize v) (wrapUsize w), pos + 16) ∧
    (wrapUsize v = none ↔ v = 0xfefefefefefefefe) ∧
    (∀ u : Nat, u ≠ 0xfefefefefefefefe → wrapUsize u = some u) := by
  refine ⟨by simp [readKey, hv], by simp [readForeignKey, hv, hw], ?_, ?_⟩
  · by_cases hv' : v = 0xfefefefefefefefe <;> simp [wrapUsize, hv']
  · intro u hu; simp [wrapUsize, hu]

/-- Sixteen bytes: a sentinel u64 followed by the u64 value 5. -/
def c9Bytes : List Nat :=
  [254, 254, 254, 254, 254, 254, 254, 254, 5, 0, 0, 0, 0, 0, 0, 0]

/-- Witness for C9: the sentinel first u64 gives an absent rid, the
second u64 gives the present value 5. -/
theorem c9_row_foreignrow_sentinel_witness :
    readKey c9Bytes 0 = some (DatValue.row none, 8) ∧
    readForeignKey c9Bytes 0 = some (DatValue.foreignRow none (some 5), 16) := by
  obtain ⟨h1, h2, -, -⟩ :=
    c9_row_foreignrow_sentinel c9Bytes 0 0xfefefefefefefefe 5 (by rfl) (by rfl)
  constructor
  · rw [h1]; rfl
  · rw [h2]; rfl

/-! ## it parser and merger (ggpklib/src/it.rs) -/

/-- ITValue from ggpklib/src/it.rs; the BTreeSet of a `Set` is modelled
as its list of elements, with union deduplicating by equality. -/
inductive ITValue where
  | number (n : Int)
  | str (s : String)
  | set (elems : List ITValue)

mutual

def ITValue.deq : (a b : ITValue) → Decidable (a = b)
  | ITValue.number a, ITValue.number b =>
    if h : a = b then isTrue (by rw [h]) else isFalse (fun hh => h (ITValue.number.inj hh))
  | ITValue.number _, ITValue.str _ => isFalse (fun hh => ITValue.noConfusion hh)
  | ITValue.number _, ITValue.set _ => isFalse (fun hh => ITValue.noConfusion hh)
  | ITValue.str _, ITValue.number _ => isFalse (fun hh => ITValue.noConfusion hh)
  | ITValue.str a, ITValue.str b =>
    if h : a = b then isTrue (by rw [h]) else isFalse (fun hh => h (ITValue.str.inj hh))
  | ITValue.str _, ITValue.set _ => isFalse (fun hh => ITValue.noConfusion hh)
  | ITValue.set _, ITValue.number _ => isFalse (fun hh => ITValue.noConfusion hh)
  | ITValue.set _, ITValue.str _ => isFalse (fun hh => ITValue.noConfusion hh)
  | ITValue.set a, ITValue.set b =>
    match ITValue.deqList a b with
    | isTrue h => isTrue (by rw [h])
    | isFalse h => isFalse (fun hh => h (ITValue.set.inj hh))

def ITValue.deqList : (a b : List ITValue) → Decidable (a = b)
  | [], [] => isTrue rfl
  | [], _ :: _ => isFalse (fun hh => List.noConfusion hh)
  | _ :: _, [] => isFalse (fun hh => List.noConfusion hh)
  | x :: xs, y :: ys =>
    match ITValue.deq x y, ITValue.deqList xs ys with
    | isTrue h1, isTrue h2 => isTrue (by rw [h1, h2])
    | isFalse h1, _ => isFalse (by intro hh; cases hh; exact h1 rfl)
    | _, isFalse h2 => isFalse (by intro hh; cases hh; exact h2 rfl)

end

instance : DecidableEq ITValue := ITValue.deq

/-- BTreeSet::extend of the source's Set merge: the child's elements
followed by the parent's elements not already present. -/
def setUnion (a b : List ITValue) : List ITValue :=
  a ++ b.filter (fun x => decide (x ∉ a))

/-- ITFile from ggpklib/src/it.rs.  The two levels of HashMap are
modelled extensionally as lookup functions, so `insert`/`get_mut` of the
source become pointwise description of the merged map. -/
structure ITFile where
  version : Nat
  aabstract : Bool
  extendsName : String
  sections : String → Option (String → Option ITValue)

/-- Per-value merge of `ITFile::merge` when a key exists in both maps:
two Sets extend, any other shape keeps the child's value. -/
def mergeValue (cv pv : ITValue) : ITValue :=
  match cv, pv with
  | ITValue.set a, ITValue.set b => ITValue.set (setUnion a b)
  | cvv, _ => cvv

/-- Per-key merge of one section present in both files, from the inner
loop of `ITFile::merge`: a key absent in the child is inserted from the
parent, a key present in both goes through `mergeValue`. -/
def mergeSectionMap (cm pm : String → Option ITValue) : String → Option ITValue :=
  fun k =>
    match cm k, pm k with
    | none, pv => pv
    | some cv, none => some cv
    | some cv, some pv => some (mergeValue cv pv)

/-- ITFile::merge from ggpklib/src/it.rs: sections absent in the child
are inserted wholesale from the parent; sections present in both merge
per key; version, abstract flag and extends come from the child. -/
def ITFile.merge (child parent : ITFile) : ITFile :=
  { version := child.version, aabstract := child.aabstract,
    extendsName := child.extendsName,
    sections := fun sk =>
      match child.sections sk, parent.sections sk with
      | none, pm => pm
      | some cm, none => some cm
      | some cm, some pm => some (mergeSectionMap cm pm) }

/-- Section map of the synthetic child: `Base { tag = "a" }`. -/
def c6ChildBase : String → Option ITValue :=
  fun k => if k = "tag" then some (ITValue.set [ITValue.str "a"]) else none

/-- Section map of the synthetic parent: `Base { tag = "b" }`. -/
def c6ParentBase : String → Option ITValue :=
  fun k => if k = "tag" then some (ITValue.set [ITValue.str "b"]) else none

/-- Synthetic it file `version 2 extends "parent"` with `Base.tag = {"a"}`. -/
def c6Child : ITFile :=
  { version := 2, aabstract := false, extendsName := "parent",
    sections := fun sk => if sk = "Base" then some c6ChildBase else none }

/-- Synthetic parent it file with `Base.tag = {"b"}`. -/
def c6Parent : ITFile :=
  { version := 1, aabstract := false, extendsName := "nothing",
    sections := fun sk => if sk = "Base" then some c6ParentBase else none }

/-- Claim C6: merge clauses of ITFile::merge — a section absent in the
child is taken from the parent; within a shared section a key absent in
the child is inserted from the parent, two Set values take their union
(membership-wise), and any other combination keeps the child's value; and
concretely Base.tag = Set(a) merged over Base.tag = Set(b) yields
Set(a, b). -/
theorem c6_merge_clauses (child parent : ITFile) (sk k : String)
    (cm pm : String → Option ITValue) :
    (child.sections sk = none → (child.merge parent).sections sk = parent.sections sk) ∧
    (child.sections sk = some cm → parent.sections sk = none →
      (child.merge parent).sections sk = some cm) ∧
    (child.sections sk = some cm → parent.sections sk = some pm →
      ((child.merge parent).sections sk = some (mergeSectionMap cm pm) ∧
       (cm k = none → mergeSectionMap cm pm k = pm k) ∧
       (∀ a b, cm k = some (ITValue.set a) → pm k = some (ITValue.set b) →
         mergeSectionMap cm pm k = some (ITValue.set (setUnion a b)) ∧
         ∀ x, x ∈ setUnion a b ↔ x ∈ a ∨ x ∈ b) ∧
       (∀ cv, cm k = some cv →
         (∀ a b, ¬(cv = ITValue.set a ∧ pm k = some (ITValue.set b))) →
         mergeSectionMap cm pm k = some cv))) ∧
    ((c6Child.merge c6Parent).sections "Base").map (fun m => m "tag") =
      some (some (ITValue.set [ITValue.str "a", ITValue.str "b"])) := by
  refine ⟨?_, ?_, ?_, ?_⟩
  · intro h; simp [ITFile.merge, h]
  · intro h1 h2; simp [ITFile.merge, h1, h2]
  · intro h1 h2
    refine ⟨by simp [ITFile.merge, h1, h2], ?_, ?_, ?_⟩
    · intro hk; simp [mergeSectionMap, hk]
    · intro a b hck hpk
      refine ⟨by simp [mergeSectionMap, hck, hpk, mergeValue], ?_⟩
      intro x
      simp only [setUnion, List.mem_append, List.mem_filter, decide_eq_true_eq]
      constructor
      · rintro (hx | ⟨hx, -⟩)
        · exact Or.inl hx
        · exact Or.inr hx
      · rintro (hx | hx)
        · exact Or.inl hx
        · by_cases hxa : x ∈ a
          · exact Or.inl hxa
          · exact Or.inr ⟨hx, hxa⟩
    · intro cv hck hno
      cases hpv : pm k with
      | none => simp [mergeSectionMap, hck, hpv]
      | some pv =>
        simp only [mergeSectionMap, hck, hpv]
        cases cv with
        | set a =>
          cases pv with
          | set b => exact absurd ⟨rfl, hpv⟩ (hno a b)
          | number n => simp [mergeValue]
          | str s => simp [mergeValue]
        | number n => simp [mergeValue]
        | str s => simp [mergeValue]
  · rfl

/-- Witness for C6: applying the merge clauses to the synthetic
child/parent pair with Base.tag sets yields the concrete union. -/
theorem c6_merge_clauses_witness :
    (c6Child.merge c6Parent).sections "Base" = some (mergeSectionMap c6ChildBase c6ParentBase) ∧
    mergeSectionMap c6ChildBase c6ParentBase "tag" =
      some (ITValue.set (setUnion [ITValue.str "a"] [ITValue.str "b"])) ∧
    setUnion [ITValue.str "a"] [ITValue.str "b"] = [ITValue.str "a", ITValue.str "b"] := by
  obtain ⟨-, -, hboth, -⟩ :=
    c6_merge_clauses c6Child c6Parent "Base" "tag" c6ChildBase c6ParentBase
  obtain ⟨hsec, -, hsets, -⟩ := hboth rfl rfl
  exact ⟨hsec, (hsets [ITValue.str "a"] [ITValue.str "b"] rfl rfl).1, rfl⟩

/-- Claim C10: ITFile::merge copies the child's version, abstract flag
and extends field into the result, whatever the parent holds. -/
theorem c10_merge_frame (child parent : ITFile) :
    (child.merge parent).version = child.version ∧
    (child.merge parent).aabstract = child.aabstract ∧
    (child.merge parent).extendsName = child.extendsName :=
  ⟨rfl, rfl, rfl⟩

/-! ## Bundle index and VFS (ggpklib/src/bundle_index.rs, ggpklib/src/poefs/mod.rs) -/

/-- BundleRecord from ggpklib/src/bundle_index.rs. -/
structure BundleRecord where
  nameLength : Nat
  name : String
  bundleUncompressedSize : Nat

/-- FileRecord from ggpklib/src/bundle_index.rs. -/
structure FileRecord where
  hash : Nat
  bundleIndex : Nat
  fileOffset : Nat
  fileSize : Nat

/-- PathRep from ggpklib/src/bundle_index.rs. -/
structure PathRep where
  hash : Nat
  payloadOffset : Nat
  payloadSize : Nat
  payloadRecursiveSize : Nat

/-- BundleIndex from ggpklib/src/bundle_index.rs. -/
structure BundleIndex where
  bundleCount : Nat
  bundles : List BundleRecord
  filesCount : Nat
  files : List FileRecord
  pathRepCount : Nat
  pathRep : List PathRep
  pathRepBundle : Bundle
  pathRepData : List Nat

/-- Errors surfaced by PoeFS::get_file.  `panic` stands for the Rust
panics (out-of-bounds indexing, failed decompression unwrap). -/
inductive PoeError where
  | notFound (msg : String)
  | sourceError (msg : String)
  | panic

/-- PoeFS state from ggpklib/src/poefs/mod.rs: the path-to-hash and
hash-to-file-index maps are association lists; the caches play no role in
get_file and are omitted.  The source adapter is passed to `getFile` as a
pure oracle and the second component of the result records the paths
requested from it during the call, so an empty list means the adapter was
never invoked (and therefore its state is unchanged). -/
structure PoeFS where
  paths : List (String × Nat)
  fileMap : List (Nat × Nat)
  bundleIndex : BundleIndex

/-- PoeFS::get_file from ggpklib/src/poefs/mod.rs. -/
def PoeFS.getFile (fs : PoeFS)
    (src : String → Except String (Option (Bundle × List Nat)))
    (dec : List Nat → Nat → Option (List Nat)) (path : String) :
    Except PoeError (Option (List Nat)) × List String :=
  match fs.paths.lookup path with
  | none => (Except.error (PoeError.notFound "path not found in index bundle"), [])
  | some hash =>
    match fs.fileMap.lookup hash with
    | none => (Except.error (PoeError.notFound "path hash not found in file map"), [])
    | some index =>
      match fs.bundleIndex.files[index]? with
      | none => (Except.error PoeError.panic, [])
      | some fileRecord =>
        match fs.bundleIndex.bundles[fileRecord.bundleIndex]? with
        | none => (Except.error PoeError.panic, [])
        | some bundleRecord =>
          let bundlePath := "/Bundles2/" ++ bundleRecord.name ++ ".bundle.bin"
          match src bundlePath with
          | Except.error e => (Except.error (PoeError.sourceError e), [bundlePath])
          | Except.ok none =>
            (Except.error (PoeError.notFound "bundle file not found"), [bundlePath])
          | Except.ok (some (bundle, bundleData)) =>
            match Bundle.data dec bundle bundleData with
            | none => (Except.error PoeError.panic, [bundlePath])
            | some uncompressed =>
              if fileRecord.fileOffset + fileRecord.fileSize ≤ uncompressed.length then
                (Except.ok (some ((uncompressed.drop fileRecord.fileOffset).take
                  fileRecord.fileSize)), [bundlePath])
              else (Except.error PoeError.panic, [bundlePath])

/-- Claim C2: when the path is present in the paths map but its hash is
absent from the file map, get_file returns the NotFound error produced at
the file-map lookup and never invokes the source adapter. -/
theorem c2_missing_hash_not_found (fs : PoeFS)
    (src : String → Except String (Option (Bundle × List Nat)))
    (dec : List Nat → Nat → Option (List Nat)) (p : String) (h : Nat)
    (hp : fs.paths.lookup p = some h) (hm : fs.fileMap.lookup h = none) :
    fs.getFile src dec p =
      (Except.error (PoeError.notFound "path hash not found in file map"), []) := by
  simp [PoeFS.getFile, hp, hm]

/-- Empty head payload for inert bundle values in test states. -/
def emptyHead : HeadPayload :=
  { firstFileEncode := 0, unk10 := 0, uncompressedSize := 0,
    totalPayloadSize := 0, blockCount := 0, uncompressedBlockGranularity := 0,
    unk28 := [0, 0, 0, 0], blockSizes := [] }

/-- Empty bundle for inert bundle values in test states. -/
def emptyBundle : Bundle :=
  { uncompressedSize := 0, totalPayloadSize := 0, headPayloadSize := 48,
    headPayload := emptyHead }

/-- PoeFS state whose paths map knows "/a" with hash 1, while the file
map only knows hash 2. -/
def c2Fs : PoeFS :=
  { paths := [("/a", 1)], fileMap := [(2, 0)],
    bundleIndex :=
      { bundleCount := 0, bundles := [], filesCount := 0, files := [],
        pathRepCount := 0, pathRep := [], pathRepBundle := emptyBundle,
        pathRepData := [] } }

/-- Witness for C2 at the concrete state `c2Fs`. -/
theorem c2_missing_hash_not_found_witness :
    PoeFS.getFile c2Fs (fun _ => Except.ok none) decAlways "/a" =
      (Except.error (PoeError.notFound "path hash not found in file map"), []) :=
  c2_missing_hash_not_found c2Fs (fun _ => Except.ok none) decAlways "/a" 1 rfl rfl

/-! ## Path expander (make_paths in ggpklib/src/poefs/mod.rs) -/

/-- Continuation-byte test for UTF-8 validation. -/
def utf8Cont (b : Nat) : Bool := decide (128 ≤ b) && decide (b < 192)

/-- UTF-8 validity of a byte list, modelling `String::from_utf8`
(rejecting overlong forms, surrogates and values above U+10FFFF). -/
def isValidUtf8 : List Nat → Bool
  | [] => true
  | b :: rest =>
    if b < 128 then isValidUtf8 rest
    else if 194 ≤ b ∧ b ≤ 223 then
      match rest with
      | c1 :: r => utf8Cont c1 && isValidUtf8 r
      | [] => false
    else if b = 224 then
      match rest with
      | c1 :: c2 :: r => decide (160 ≤ c1) && decide (c1 < 192) && utf8Cont c2 && isValidUtf8 r
      | _ => false
    else if 225 ≤ b ∧ b ≤ 236 then
      match rest with
      | c1 :: c2 :: r => utf8Cont c1 && utf8Cont c2 && isValidUtf8 r
      | _ => false
    else if b = 237 then
      match rest with
      | c1 :: c2 :: r => decide (128 ≤ c1) && decide (c1 < 160) && utf8Cont c2 && isValidUtf8 r
      | _ => false
    else if 238 ≤ b ∧ b ≤ 239 then
      match rest with
      | c1 :: c2 :: r => utf8Cont c1 && utf8Cont c2 && isValidUtf8 r
      | _ => false
    else if b = 240 then
      match rest with
      | c1 :: c2 :: c3 :: r =>
        decide (144 ≤ c1) && decide (c1 < 192) && utf8Cont c2 && utf8Cont c3 && isValidUtf8 r
      | _ => false
    else if 241 ≤ b ∧ b ≤ 243 then
      match rest with
      | c1 :: c2 :: c3 :: r => utf8Cont c1 && utf8Cont c2 && utf8Cont c3 && isValidUtf8 r
      | _ => false
    else if b = 244 then
      match rest with
      | c1 :: c2 :: c3 :: r =>
        decide (128 ≤ c1) && decide (c1 < 144) && utf8Cont c2 && utf8Cont c3 && isValidUtf8 r
      | _ => false
    else false

/-- Bytes consumed by `read_until(0, ..)` from the remainder: everything
up to and including the first NUL (or all bytes when no NUL occurs). -/
def untilZeroBuf (l : List Nat) : List Nat :=
  l.takeWhile (fun b => decide (b ≠ 0)) ++
    (l.drop (l.takeWhile (fun b => decide (b ≠ 0))).length).take 1

/-- Remainder left after `read_until(0, ..)`. -/
def untilZeroRest (l : List Nat) : List Nat :=
  (l.drop (l.takeWhile (fun b => decide (b ≠ 0))).length).drop 1

/-- Loop of make_paths from ggpklib/src/poefs/mod.rs.  Paths are kept as
UTF-8 byte lists (`String::from_utf8` is the validity check; the
`unwrap` panic on invalid UTF-8 is `none`; `trim_end_matches` drops the
trailing NUL that read_until kept).  The loop runs while more than 4
bytes remain (`position < len - 4`).  `fuel` only bounds the number of
iterations for structural recursion: every iteration consumes at least
four bytes, so the initial fuel of `makePaths` can never run out. -/
def makePathsGo : Nat → List Nat → Bool → List (List Nat) → List (List Nat) →
    Option (List (List Nat))
  | 0, _, _, _, _ => none
  | Nat.succ fuel, b0 :: b1 :: b2 :: b3 :: b4 :: rest', base, temp, paths =>
    let index := b0 + 256 * b1 + 65536 * b2 + 16777216 * b3
    let rest := b4 :: rest'
    if index = 0 then
      makePathsGo fuel rest (!base) (if !base then [] else temp) paths
    else
      let buf := untilZeroBuf rest
      if isValidUtf8 buf then
        let s := buf.takeWhile (fun b => decide (b ≠ 0))
        let s2 :=
          match temp.get? (index - 1) with
          | some pre => pre ++ s
          | none => s
        if base then makePathsGo fuel (untilZeroRest rest) base (temp ++ [s2]) paths
        else makePathsGo fuel (untilZeroRest rest) base temp (paths ++ [s2])
      else none
  | Nat.succ _, _, _, _, paths => some paths
/-- Entry point of make_paths: empty temp, base off, empty output; the
final pattern of `makePathsGo` only fires when at most 4 bytes remain, in
which case the accumulated `paths` are returned (handled here by passing
the accumulator). -/
def makePaths (l : List Nat) : Option (List (List Nat)) :=
  makePathsGo (l.length + 1) l false [] []

/-- The byte sequence of claim C3: u32 0, "/Bundles2/" NUL, u32 0,
u32 1, "a" NUL. -/
def c3ClaimInput : List Nat :=
  [0, 0, 0, 0,
   47, 66, 117, 110, 100, 108, 101, 115, 50, 47, 0,
   0, 0, 0, 0,
   1, 0, 0, 0,
   97, 0]

/-- Claim C3 counterexample: fed the claim's byte sequence, make_paths
reads the first four bytes of "/Bundles2/" as the index token (no index
precedes the fragment), stores the fragment "dles2/" in the dictionary,
and emits the single path "dles2/a" (bytes 100,108,101,115,50,47,97) —
not "/Bundles2/a" (bytes 47,66,117,110,100,108,101,115,50,47,97). -/
theorem c3_path_expander_counterexample :
    makePaths c3ClaimInput = some [[100, 108, 101, 115, 50, 47, 97]] ∧
    some [[100, 108, 101, 115, 50, 47, 97]] ≠
      some [[47, 66, 117, 110, 100, 108, 101, 115, 50, 47, 97]] := by
  exact ⟨by decide, by decide⟩

/-- The claim's byte sequence amended with the 1-based index token 1
before the dictionary fragment: u32 0, u32 1, "/Bundles2/" NUL, u32 0,
u32 1, "a" NUL. -/
def c3AmendedInput : List Nat :=
  [0, 0, 0, 0,
   1, 0, 0, 0,
   47, 66, 117, 110, 100, 108, 101, 115, 50, 47, 0,
   0, 0, 0, 0,
   1, 0, 0, 0,
   97, 0]

/-- Claim C3 (amended): with the index token present before the
dictionary fragment, make_paths emits exactly the single path
"/Bundles2/a". -/
theorem c3_path_expander_amended :
    makePaths c3AmendedInput =
      some [[47, 66, 117, 110, 100, 108, 101, 115, 50, 47, 97]] := by
  decide

/-! ## GGPK tree lookup (src/poefs/local.rs, src/ggpk.rs) -/

/-- Entry shape of src/ggpk.rs as consulted by `find_file_helper`: the
child offsets of PDIR/GGPK records are resolved to their parsed entries
(the source seeks and re-parses, unwrapping failures), and the fields the
lookup never reads (lengths, hashes, file payload position) are omitted.
A GGPK record holds exactly two child offsets. -/
inductive GgpkNode where
  | free
  | file (name : String)
  | pdir (name : String) (children : List GgpkNode)
  | ggpk (child0 child1 : GgpkNode)

mutual

/-- LocalSource::find_file_helper from src/poefs/local.rs: empty path
finds nothing; FREE finds nothing; a FILE matches when its name equals
the first remaining component; a PDIR whose name equals the first
component descends into its children with the remaining components,
taking the first hit; a GGPK tries both children on the whole path. -/
def findFileHelper : GgpkNode → List String → Option GgpkNode
  | _, [] => none
  | GgpkNode.free, _ :: _ => none
  | GgpkNode.file n, p :: _ => if n = p then some (GgpkNode.file n) else none
  | GgpkNode.pdir n ch, p :: rest =>
    if n = p then findInChildren ch rest else none
  | GgpkNode.ggpk c0 c1, p :: rest =>
    match findFileHelper c0 (p :: rest) with
    | some e => some e
    | none => findFileHelper c1 (p :: rest)

/-- The loop over a PDIR's children: first hit wins. -/
def findInChildren : List GgpkNode → List String → Option GgpkNode
  | [], _ => none
  | c :: cs, path =>
    match findFileHelper c path with
    | some e => some e
    | none => findInChildren cs path

end

mutual

/-- All FILE entries the lookup discipline can reach, in stored
depth-first order: a FILE whose name equals the first remaining
component, descending only through PDIR nodes whose name equals the next
component (which is consumed), and through both GGPK children without
consuming a component. -/
def dfsFiles : GgpkNode → List String → List GgpkNode
  | _, [] => []
  | GgpkNode.free, _ :: _ => []
  | GgpkNode.file n, p :: _ => if n = p then [GgpkNode.file n] else []
  | GgpkNode.pdir n ch, p :: rest =>
    if n = p then dfsFilesList ch rest else []
  | GgpkNode.ggpk c0 c1, p :: rest =>
    dfsFiles c0 (p :: rest) ++ dfsFiles c1 (p :: rest)

/-- Depth-first candidates of a child list, in stored order. -/
def dfsFilesList : List GgpkNode → List String → List GgpkNode
  | [], _ => []
  | c :: cs, path => dfsFiles c path ++ dfsFilesList cs path

end

/-- The child loop returns the head of the concatenated depth-first
candidates, given the correspondence for each child. -/
theorem findInChildren_eq_head (path : List String) :
    ∀ ch : List GgpkNode,
      (∀ c ∈ ch, findFileHelper c path = (dfsFiles c path).head?) →
      findInChildren ch path = (dfsFilesList ch path).head? := by
  intro ch
  induction ch with
  | nil => intro _; simp [findInChildren, dfsFilesList]
  | cons c cs ih =>
    intro hIH
    have hc := hIH c (by simp)
    have hcs := ih (fun x hx => hIH x (List.mem_cons_of_mem c hx))
    simp only [findInChildren, dfsFilesList, hc, hcs]
    rw [List.head?_append]
    cases (dfsFiles c path).head? <;> simp

/-- Claim C8 (amended): for every GGPK tree and path component list, the
tree lookup returns the first FILE entry, in stored depth-first order,
whose name equals the first remaining path component (components after
it are ignored), descending only through PDIR nodes whose name equals
the next component; it returns none when no such file exists. -/
theorem c8_find_first_dfs (e : GgpkNode) (path : List String) :
    findFileHelper e path = (dfsFiles e path).head? := by
  suffices H : ∀ n (e : GgpkNode) (path : List String), sizeOf e ≤ n →
      findFileHelper e path = (dfsFiles e path).head? from H (sizeOf e) e path le_rfl
  intro n
  induction n with
  | zero => intro e path he; cases e <;> simp_arith at he
  | succ n ih =>
    intro e path he
    cases e with
    | free => cases path <;> simp [findFileHelper, dfsFiles]
    | file nm =>
      cases path with
      | nil => simp [findFileHelper, dfsFiles]
      | cons p rest => by_cases h : nm = p <;> simp [findFileHelper, dfsFiles, h]
    | pdir nm ch =>
      cases path with
      | nil => simp [findFileHelper, dfsFiles]
      | cons p rest =>
        by_cases h : nm = p
        · simp only [findFileHelper, dfsFiles, h, if_pos]
          refine findInChildren_eq_head rest ch (fun c hc => ih c rest ?_)
          have hlt := List.sizeOf_lt_of_mem hc
          simp_arith at he
          omega
        · simp [findFileHelper, dfsFiles, h]
    | ggpk c0 c1 =>
      cases path with
      | nil => simp [findFileHelper, dfsFiles]
      | cons p rest =>
        simp_arith at he
        have h0 := ih c0 (p :: rest) (by omega)
        have h1 := ih c1 (p :: rest) (by omega)
        simp only [findFileHelper, dfsFiles, h0, h1]
        rw [List.head?_append]
        cases (dfsFiles c0 (p :: rest)).head? <;> simp

/-- Claim C8 counterexample: looking up the components ["a", "b"] in a
tree consisting of the single FILE "a" returns that file, although no
FILE named "b" (the final component) exists — the code matches a FILE
against the first remaining component and ignores the rest. -/
theorem c8_final_component_counterexample :
    findFileHelper (GgpkNode.file "a") ["a", "b"] = some (GgpkNode.file "a") ∧
    (["a", "b"] : List String).getLast? = some "b" ∧
    ("a" : String) ≠ "b" := by
  refine ⟨by simp [findFileHelper], by simp, by decide⟩

/-! ## Translation decoder (src/translation.rs) -/

/-- Whitespace class of the source's regexes (`[\s]`) and of
`str::trim`, restricted to the ASCII whitespace that translation files
contain. -/
def isWS (c : Char) : Bool :=
  c == ' ' || c == '\t' || c == '\r' || c == '\n' || c == '\x0b' || c == '\x0c'

/-- ASCII word character, the `\w` class restricted to ASCII. -/
def isWordChar (c : Char) : Bool :=
  (('a' ≤ c && c ≤ 'z') || ('A' ≤ c && c ≤ 'Z') || ('0' ≤ c && c ≤ '9') || c == '_')

/-- Decimal digit. -/
def isDigit (c : Char) : Bool := '0' ≤ c && c ≤ '9'

/-- Strip one trailing carriage return, as `str::lines` does on a line
that was terminated by a newline. -/
def stripCR (l : List Char) : List Char :=
  match l.getLast? with
  | some '\r' => l.dropLast
  | _ => l

/-- Accumulating core of `str::lines`: split at newlines, strip a
carriage return before each newline, drop a final empty segment created
by a trailing newline. -/
def linesAux : List Char → List Char → List (List Char)
  | [], acc => [acc.reverse]
  | '\n' :: rest, acc =>
    stripCR acc.reverse ::
      (match rest with
       | [] => []
       | _ :: _ => linesAux rest [])
  | c :: rest, acc => linesAux rest (c :: acc)

/-- str::lines over a string: the empty string yields no lines. -/
def strLines (s : String) : List String :=
  match s.toList with
  | [] => []
  | cs => (linesAux cs []).map (fun l => String.mk l)

/-- Leading-BOM strip of `TranslationFile::new`
(`trim_start_matches('\u{feff}')`). -/
def dropBOM (s : String) : String :=
  String.mk (s.toList.dropWhile (fun c => c == '\uFEFF'))

/-- Match of the remainder of a description line against
`[\s]*[\S]*[\s]*$`: optional whitespace, one whitespace-free token,
optional whitespace. -/
def matchWsTokenWs (r : List Char) : Bool :=
  let r1 := r.dropWhile isWS
  let tok := r1.takeWhile (fun c => !(isWS c))
  (r1.drop tok.length).all isWS

/-- Presence of the `description` capture group of DESCRIPTION_REGEX on
a line: only its last alternation branch
`^description[\s]*[\S]*[\s]*$` binds the group, and no earlier branch
(header, include, no_description — each anchored and starting with a
different character) can match a line starting with "description". -/
def descriptionGroupPresent (line : String) : Bool :=
  let cs := line.toList
  "description".toList.isPrefixOf cs && matchWsTokenWs (cs.drop 11)

/-- STATS_REGEX `^[\s]*([0-9]+) (.*+)$`: leading whitespace, a digit
run, one space, and the rest of the line as the `stat_ids` capture (the
unused `stat_id_count` capture is not returned). -/
def statsCapture (line : String) : Option String :=
  let r := line.toList.dropWhile isWS
  let ds := r.takeWhile isDigit
  if ds = [] then none
  else
    match r.drop ds.length with
    | ' ' :: rest => some (String.mk rest)
    | _ => none

/-- `str::split(' ')`, keeping empty segments. -/
def splitOnSpace : List Char → List (List Char)
  | [] => [[]]
  | c :: rest =>
    if c = ' ' then [] :: splitOnSpace rest
    else
      match splitOnSpace rest with
      | h :: t => (c :: h) :: t
      | [] => [[c]]

/-- LANG_REGEX `^[\s]*lang "([\w ]+)"[\s]*$`: the language capture. -/
def langCapture (line : String) : Option String :=
  let r := line.toList.dropWhile isWS
  if ['l', 'a', 'n', 'g', ' ', '"'].isPrefixOf r then
    let r1 := r.drop 6
    let content := r1.takeWhile (fun c => isWordChar c || c == ' ')
    if content = [] then none
    else
      match r1.drop content.length with
      | '"' :: rest => if rest.all isWS then some (String.mk content) else none
      | _ => none
  else none

/-- Decimal value of a digit run. -/
def digitsToNat : List Char → Nat → Nat
  | [], acc => acc
  | c :: rest, acc => digitsToNat rest (acc * 10 + (c.toNat - 48))

/-- ROW_COUNT_REGEX `^[\s]*([0-9]+)[\s]*$` followed by `parse::<i32>()`,
whose overflow panic is `none`. -/
def rowCountCapture (line : String) : Option Int :=
  let r := line.toList.dropWhile isWS
  let ds := r.takeWhile isDigit
  if ds = [] then none
  else if (r.drop ds.length).all isWS then
    if digitsToNat ds 0 ≤ 2147483647 then some (Int.ofNat (digitsToNat ds 0)) else none
  else none

/-- Character class `[0-9\-\|#!]` of the minmax group of ROW_REGEX. -/
def isMMChar (c : Char) : Bool :=
  isDigit c || c == '-' || c == '|' || c == '#' || c == '!'

/-- Space or tab, the `[ \t]` class. -/
def isSpTab (c : Char) : Bool := c == ' ' || c == '\t'

/-- One repetition `[0-9\-\|#!]+[ \t]+` of the minmax group. -/
def minmaxRep (l : List Char) : Option (List Char × List Char) :=
  let tok := l.takeWhile isMMChar
  if tok = [] then none
  else
    let l1 := l.drop tok.length
    let sps := l1.takeWhile isSpTab
    if sps = [] then none
    else some (tok ++ sps, l1.drop (sps.length))

/-- Greedy `(?:[0-9\-\|#!]+[ \t]+)+`: keep taking repetitions while the
next character is in the token class (stopping earlier cannot help,
since the following literal quote matches neither class).  Fuel only
bounds iterations; each repetition consumes at least two characters. -/
def minmaxMany : Nat → List Char → Option (List Char × List Char)
  | 0, _ => none
  | Nat.succ fuel, l =>
    match minmaxRep l with
    | none => none
    | some (c1, r1) =>
      match r1 with
      | c :: _ =>
        if isMMChar c then
          match minmaxMany fuel r1 with
          | some (c2, r2) => some (c1 ++ c2, r2)
          | none => none
        else some (c1, r1)
      | [] => some (c1, r1)

/-- Greedy `(?:[ \t]*[\w%]+)*` with its captured text and the rest. -/
def quantLoop : Nat → List Char → (List Char × List Char)
  | 0, l => ([], l)
  | Nat.succ fuel, l =>
    let sps := l.takeWhile isSpTab
    let tok := (l.drop sps.length).takeWhile (fun c => isWordChar c || c == '%')
    if tok = [] then ([], l)
    else
      let pr := quantLoop fuel (l.drop (sps.length + tok.length))
      (sps ++ tok ++ pr.1, pr.2)

/-- Match of everything after the closing quote of a row line against
`(?:[ \t]*[\w%]+)*[ \t]*[\r\n]*$`, returning the quantifier capture. -/
def quantTail (l : List Char) : Option (List Char) :=
  let pr := quantLoop (l.length + 1) l
  let r1 := pr.2.dropWhile isSpTab
  let r2 := r1.dropWhile (fun c => c == '\r' || c == '\n')
  if r2 = [] then some pr.1 else none

/-- Indices of double quotes in a character list. -/
def quoteIdxs (l : List Char) : List Nat :=
  (List.range l.length).filter (fun i => decide (l.get? i = some '"'))

/-- Split at the last quote whose tail matches the quantifier pattern —
the split the greedy `.*\s*` description group selects. -/
def tryQuotes (l : List Char) : List Nat → Option (List Char × List Char)
  | [] => none
  | i :: rest =>
    match quantTail (l.drop (i + 1)) with
    | some cap => some (l.take i, cap)
    | none => tryQuotes l rest

/-- ROW_REGEX
`^[\s]*((?:[0-9\-\|#!]+[ \t]+)+)"(.*\s*)"((?:[ \t]*[\w%]+)*)[ \t]*[\r\n]*$`:
the (minmax, description, quantifier) captures. -/
def rowCapture (line : String) : Option (String × String × String) :=
  let cs := line.toList
  let lead := cs.takeWhile isWS
  match minmaxMany (cs.length + 1) (cs.drop lead.length) with
  | none => none
  | some (mm, r1) =>
    match r1 with
    | '"' :: r2 =>
      match tryQuotes r2 ((quoteIdxs r2).reverse) with
      | none => none
      | some (desc, quant) => some (String.mk mm, String.mk desc, String.mk quant)
    | _ => none

/-- Parser state of src/translation.rs. -/
inductive PState where
  | description
  | stats
  | lang
  | rowCount
  | rows
deriving DecidableEq

/-- StatKey from src/translation.rs. -/
inductive StatKey where
  | single (id : String)
  | multiple (ids : List String)
deriving DecidableEq

/-- TranslationRow from src/translation.rs. -/
structure TranslationRow where
  condition : String
  formatString : String
  modifiers : String
deriving DecidableEq

/-- Mutable locals of `TranslationFile::parse`; the nested
HashMap/BTreeMap is an association list in insertion order. -/
structure TParser where
  state : PState
  lang : String
  rowCount : Int
  statsIds : StatKey
  map : List (String × List (StatKey × List TranslationRow))
deriving DecidableEq

/-- `entry(key).or_default().push(row)` on the inner map. -/
def pushInner (key : StatKey) (row : TranslationRow) :
    List (StatKey × List TranslationRow) → List (StatKey × List TranslationRow)
  | [] => [(key, [row])]
  | (k, rs) :: rest =>
    if k = key then (k, rs ++ [row]) :: rest else (k, rs) :: pushInner key row rest

/-- `map.entry(lang).or_default().entry(key).or_default().push(row)`. -/
def pushRow (lang : String) (key : StatKey) (row : TranslationRow) :
    List (String × List (StatKey × List TranslationRow)) →
    List (String × List (StatKey × List TranslationRow))
  | [] => [(lang, pushInner key row [])]
  | (lg, inner) :: rest =>
    if lg = lang then (lg, pushInner key row inner) :: rest
    else (lg, inner) :: pushRow lang key row rest

/-- One line of `TranslationFile::parse`: blank lines are skipped; the
states transition as in the source; a failing `unwrap` (STATS_REGEX,
ROW_COUNT_REGEX or ROW_REGEX not matching, row-count overflow) is
`none`.  In the Rows state the counter is decremented before the row
line is parsed, and only a counter value of zero returns to Lang. -/
def stepLine (st : TParser) (line : String) : Option TParser :=
  if line.toList.all isWS then some st
  else
    match st.state with
    | PState.description =>
      if descriptionGroupPresent line then some { st with state := PState.stats }
      else some st
    | PState.stats =>
      match statsCapture line with
      | none => none
      | some ids =>
        let idList := (splitOnSpace ids.toList).map (fun l => String.mk l)
        let key :=
          if idList.length = 1 then StatKey.single (idList.headD "")
          else StatKey.multiple idList
        some { st with statsIds := key, lang := "English", state := PState.lang }
    | PState.lang =>
      match langCapture line with
      | some newLang => some { st with lang := newLang, state := PState.rowCount }
      | none =>
        match rowCountCapture line with
        | some rc => some { st with rowCount := rc, state := PState.rows }
        | none =>
          if descriptionGroupPresent line then some { st with state := PState.stats }
          else some st
    | PState.rowCount =>
      match rowCountCapture line with
      | none => none
      | some rc => some { st with rowCount := rc, state := PState.rows }
    | PState.rows =>
      let rc := st.rowCount - 1
      match rowCapture line with
      | none => none
      | some (cond, fmt, quant) =>
        let m := pushRow st.lang st.statsIds
          { condition := cond, formatString := fmt, modifiers := quant } st.map
        if rc = 0 then some { st with rowCount := rc, map := m, state := PState.lang }
        else some { st with rowCount := rc, map := m }

/-- Initial locals of `TranslationFile::parse`. -/
def initialTParser : TParser :=
  { state := PState.description, lang := "English", rowCount := 0,
    statsIds := StatKey.single "", map := [] }

/-- Folding the line handler from a given state. -/
def parseLinesFrom (st : TParser) : List String → Option TParser
  | [] => some st
  | l :: rest =>
    match stepLine st l with
    | none => none
    | some st2 => parseLinesFrom st2 rest

/-- `TranslationFile::parse` over a list of lines. -/
def parseLines (ls : List String) : Option TParser :=
  parseLinesFrom initialTParser ls

/-- `TranslationFile::new` followed by `parse`: strip the leading BOM,
split into lines, run the state machine. -/
def translationParseFile (file : String) : Option TParser :=
  parseLines (strLines (dropBOM file))

/-- Stripping a leading BOM character commutes into `dropBOM`. -/
theorem c7_bom_aux (s : String) :
    dropBOM (String.mk ('\uFEFF' :: s.toList)) = dropBOM s := rfl

/-- Claim C7 (amended): a description block declaring a row count of
zero is accepted at the count line, but the parser moves to the Rows
state with counter 0 rather than directly back to Lang, and treats the
next non-blank line as a row line — so a following lang line fails the
parse; a file prefixed with a UTF-16 BOM parses the same as the file
without it. -/
theorem c7_zero_rowcount_and_bom :
    (∀ s : String, translationParseFile (String.mk ('\uFEFF' :: s.toList)) =
      translationParseFile s) ∧
    (parseLines ["description", "1 stat_x", "0"]).map
      (fun st => (st.state, st.rowCount)) = some (PState.rows, 0) ∧
    parseLines ["description", "1 stat_x", "0", "lang \"Russian\""] = none := by
  refine ⟨fun s => ?_, by decide, by decide⟩
  unfold translationParseFile
  rw [c7_bom_aux]

/-- Claim C7 counterexample: after the lines "description", "1 stat_x"
and a zero row-count line, the parser is in the Rows state, not Lang;
adding a well-formed lang line next makes the parse fail (the line is
consumed as a row line whose regex does not match), although the claim
predicts the block is accepted with a direct transition back to Lang. -/
theorem c7_zero_rowcount_counterexample :
    (parseLines ["description", "1 stat_x", "0"]).map (fun st => st.state) =
      some PState.rows ∧
    some PState.rows ≠ some PState.lang ∧
    parseLines ["description", "1 stat_x", "0", "lang \"Russian\""] = none ∧
    langCapture "lang \"Russian\"" = some "Russian" := by
  exact ⟨by decide, by decide, by decide, by decide⟩
